import Mathlib

/-!
Verification of the distributed model-parallel training driver (`train.py`).

The driver orchestrates class-sharded classification: it pads and splits the
class space across workers, all-gathers per-worker embedding batches into a
global batch, applies each worker's shard classifier, computes a distributed
softmax cross entropy on a fixed cadence, and periodically reconstructs the
full logits matrix on rank 0 for a batch-accuracy metric.

`train.py` is embedded directly.  The helper modules it imports
(`cross_entropy.py`, `utils.py`, `model.py`) are not part of the sources, so
the definitions taken from them are modelled from the specification and say so
in their doc comments.
-/

namespace ModelParallel

/-! ## Class padding and the shard partitioner -/

/-- Padding of the class count before sharding, `train.py` line 150:
`opt.num_classes += opt.world_size - opt.num_classes % opt.world_size`.
Note the increment is applied unconditionally, also when `num_classes` is
already a multiple of `world_size`. -/
def padNumClasses (numClasses worldSize : ℕ) : ℕ :=
  numClasses + (worldSize - numClasses % worldSize)

/-- Modelled from the spec: `get_class_split` lives in `utils.py`, which is not
among the sources.  Spec section 4.1: the partitioner returns an ordered
sequence of `worldSize` shard sizes summing exactly to `numClasses`, any two
sizes differing by at most one, with the remainder distributed to the early
shards. -/
def get_class_split (numClasses worldSize : ℕ) : List ℕ :=
  (List.range worldSize).map
    (fun i => numClasses / worldSize + if i < numClasses % worldSize then 1 else 0)

/-! ## The gather-and-concatenate of the embedding batches -/

/-- The forward value of `train.py` lines 70-72: `dist.all_gather` fills
`features_gather[i]` with rank `i`'s feature batch and `torch.cat(…, dim=0)`
concatenates the buffers in ascending rank order.  A batch is a list of rows
(one row per sample). -/
def allGatherConcat {α : Type} (localBatches : List (List α)) : List α :=
  localBatches.flatten

/-- Worker `r`'s rows of the concatenated global batch: rows
`[r * localBatch, (r+1) * localBatch)`. -/
def sliceRows {α : Type} (localBatch r : ℕ) (globalBatch : List α) : List α :=
  (globalBatch.drop (r * localBatch)).take localBatch

/-! ## The startup path of the `__main__` block -/

/-- The failure modes of the startup code.  `noneSubscript` is the Python
`TypeError` raised by `class_split[opt.rank]` on line 171 when `class_split`
is still `None`; `rankOutOfRange` is the `IndexError` raised by the same
subscript when the rank is not a valid index. -/
inductive SetupError
  | noneSubscript
  | rankOutOfRange
deriving DecidableEq

/-- The pieces of state built by the startup code that the claims mention. -/
structure Setup where
  numClasses : ℕ
  classSplit : List ℕ
  partFcOutFeatures : ℕ
deriving DecidableEq

/-- The startup path of `train.py` lines 143-171: `opt.num_classes` is the
dataset class count (lines 143-145, with the default `--num_classes 0`),
`class_split` stays `None` unless `--model_parallel` is given (lines 147-153),
and line 171 builds the shard classifier `nn.Linear(256, class_split[opt.rank])`,
which subscripts `class_split`. -/
def mainSetup (modelParallel : Bool) (datasetClasses worldSize rank : ℕ) :
    Except SetupError Setup :=
  let split : Option (List ℕ) :=
    if modelParallel then
      some (get_class_split (padNumClasses datasetClasses worldSize) worldSize)
    else none
  match split with
  | none => .error .noneSubscript
  | some cs =>
    match cs[rank]? with
    | none => .error .rankOutOfRange
    | some sz =>
      .ok { numClasses := padNumClasses datasetClasses worldSize
            classSplit := cs
            partFcOutFeatures := sz }

/-- What a full run of the `__main__` block produces when startup succeeds. -/
structure RunOutcome where
  builtModel : Bool
  builtPartFc : Bool
  builtOptimizers : Bool
  criterionBuilt : Bool
  trainStepsRun : ℕ
deriving DecidableEq

/-- `train.py` line 124: `opt.distributed = True`, unconditionally. -/
def optDistributed : Bool := true

/-- The `__main__` block as a whole (`train.py` lines 102-193): run the startup
path, then enter the guarded block `if opt.fp16 and opt.distributed:` of line
181, which is the only place the criterion is instantiated (line 191) and
`train_model` is called (line 193). -/
def mainProgram (fp16 modelParallel : Bool)
    (datasetClasses worldSize rank epochs stepsPerEpoch : ℕ) :
    Except SetupError RunOutcome :=
  match mainSetup modelParallel datasetClasses worldSize rank with
  | .error e => .error e
  | .ok _ =>
    .ok { builtModel := true
          builtPartFc := true
          builtOptimizers := true
          criterionBuilt := fp16 && optDistributed
          trainStepsRun := if fp16 && optDistributed then epochs * stepsPerEpoch else 0 }

/-! ## The per-step collective trace -/

/-- The tensors a collective can carry in this program. -/
inductive Payload
  | features
  | shardLogits
  | rowMax
  | expSum
  | classifierWeight
deriving DecidableEq

/-- A collective operation together with its payload. -/
inductive Collective
  | allGather (p : Payload)
  | allReduce (p : Payload)
deriving DecidableEq

def Collective.payload : Collective → Payload
  | .allGather p => p
  | .allReduce p => p

/-- The loss cadence gate of `train.py` line 76:
`compute_loss = step > 0 and step % 10 == 0`. -/
def computeLossGate (step : ℕ) : Bool :=
  decide (0 < step) && decide (step % 10 = 0)

/-- The metric cadence gate of `train.py` line 88: `if step > 0 and step % 10 == 0`,
the same arithmetic on the step counter as line 76. -/
def metricGate (step : ℕ) : Bool :=
  decide (0 < step) && decide (step % 10 = 0)

/-- Modelled from the spec: the collectives issued inside the criterion
(`cross_entropy.py`, not among the sources).  Spec sections 4.5 and 5: on
loss-computing steps the criterion all-reduces the per-worker row maxima and
the per-worker exp sums; on other steps it issues no collective. -/
def criterionCollectives (computeLoss : Bool) : List Collective :=
  if computeLoss then [.allReduce .rowMax, .allReduce .expSum] else []

/-- The collectives one driver step issues, in program order (`train.py` lines
70-92): the mandatory embedding all-gather (line 71), the criterion's
collectives gated by line 76, and the metric logits all-gather gated by
line 88 (line 92 runs on every rank; only the concatenation and the logging of
lines 93-99 are restricted to rank 0). -/
def stepCollectives (step : ℕ) : List Collective :=
  [.allGather .features] ++ criterionCollectives (computeLossGate step) ++
    (if metricGate step then [.allGather .shardLogits] else [])

/-- Lines 70-92 contain no rank test, so the collective trace of a worker does
not depend on its rank. -/
def workerStepCollectives (_rank step : ℕ) : List Collective :=
  stepCollectives step

/-! ## The shard classifier, the reconstructed logits matrix and the metric -/

/-- `nn.Linear(256, c, bias=False)` (line 171) applied to the gathered batch
(line 73): `logit[s][j]` is the dot product of row `s` of the input with row
`j` of the weight. -/
def linearNoBias (embDim : ℕ) (w : ℕ → ℕ → ℚ) (x : ℕ → ℕ → ℚ) : ℕ → ℕ → ℚ :=
  fun s j => ∑ d ∈ Finset.range embDim, x s d * w j d

/-- `torch.cat(blocks, dim=1)` (line 94): column-wise concatenation of
width-annotated matrix blocks. -/
def catCols : List (ℕ × (ℕ → ℕ → ℚ)) → ℕ → ℕ → ℚ
  | [], _, _ => 0
  | (c, m) :: rest, s, k => if k < c then m s k else catCols rest s (k - c)

/-- Concatenation of the per-worker classifier weight blocks along the class
dimension: the virtual full weight matrix, which the program never
materializes. -/
def catRowBlocks : List (ℕ × (ℕ → ℕ → ℚ)) → ℕ → ℕ → ℚ
  | [], _, _ => 0
  | (c, w) :: rest, j, d => if j < c then w j d else catRowBlocks rest (j - c) d

/-- The per-worker shard logits of line 73: each worker applies its own weight
block to the gathered global batch. -/
def shardLogitBlocks (embDim : ℕ) (x : ℕ → ℕ → ℚ)
    (shardWeights : List (ℕ × (ℕ → ℕ → ℚ))) : List (ℕ × (ℕ → ℕ → ℚ)) :=
  shardWeights.map (fun cw => (cw.1, linearNoBias embDim cw.2 x))

/-- The full logits matrix: the gathered global batch against the virtual full
classifier weight. -/
def fullLogits (embDim : ℕ) (x : ℕ → ℕ → ℚ)
    (shardWeights : List (ℕ × (ℕ → ℕ → ℚ))) : ℕ → ℕ → ℚ :=
  linearNoBias embDim (catRowBlocks shardWeights) x

/-- `torch.max(logits, dim=1)` index with first-index tie breaking. -/
def argmaxRow (numCols : ℕ) (row : ℕ → ℚ) : ℕ :=
  (List.range numCols).foldl (fun best k => if row best < row k then k else best) 0

/-- Modelled from the spec: `compute_batch_acc_dist` lives in `utils.py`, which
is not among the sources.  Spec section 4.6: top-1 accuracy of the
reconstructed logits matrix against the replicated label vector. -/
def compute_batch_acc_dist (numCols batchSize : ℕ) (logits : ℕ → ℕ → ℚ)
    (labels : ℕ → ℕ) : ℚ :=
  (((List.range batchSize).countP
      (fun s => decide (argmaxRow numCols (logits s) = labels s)) : ℕ) : ℚ) / batchSize

/-! ## One driver step after the forward pass (lines 75-99) -/

/-- What one step logs: `loss.item()`, the recovered scale and the batch
accuracy of lines 96-99, or nothing on non-reporting steps and ranks. -/
structure StepLog where
  lossValue : Option ℚ
  scaleValue : Option ℚ
  accValue : Option ℚ
deriving DecidableEq

/-- The state a step hands to the next step, plus its log. -/
structure StepResult (α β : Type) where
  wModel : α
  wPartFc : β
  log : StepLog

/-- One driver step after the forward pass (`train.py` lines 75-99),
parametrized over the optimizer step functions (torch.optim / apex, external
collaborators, applied to the scalar that was propagated backward) and the
metric function standing at the call site of `compute_batch_acc_dist`
(line 95).  `sigma` is the multiplier `amp.scale_loss` applies (line 81);
line 82 recovers it as `scaled_loss.item() / loss.item()`; lines 83-85 run
backward on the scaled loss and step both optimizers; the metric block of
lines 88-99 runs on the cadence gate, concatenates the gathered logits and
logs `loss.item()`, the scale and the accuracy on rank 0 only. -/
def driverStep {α β : Type}
    (optStep : ℚ → α → α) (optStepFc : ℚ → β → β)
    (wModel : α) (wPartFc : β)
    (sigma lossVal : ℚ)
    (accFn : (ℕ → ℕ → ℚ) → ℚ)
    (gathered : List (ℕ × (ℕ → ℕ → ℚ)))
    (rank step : ℕ) : StepResult α β :=
  let scaledLoss := sigma * lossVal
  let scale := scaledLoss / lossVal
  let wm := optStep scaledLoss wModel
  let wf := optStepFc scaledLoss wPartFc
  if metricGate step then
    if rank = 0 then
      { wModel := wm, wPartFc := wf,
        log := { lossValue := some lossVal, scaleValue := some scale,
                 accValue := some (accFn (catCols gathered)) } }
    else
      { wModel := wm, wPartFc := wf,
        log := { lossValue := none, scaleValue := none, accValue := none } }
  else
    { wModel := wm, wPartFc := wf,
      log := { lossValue := none, scaleValue := none, accValue := none } }

/-! ## The autograd tape around the all-gather (lines 69-72) -/

/-- A tensor on the autograd tape, restricted to what lines 69-72 need: the
forward value (a list of rows) together with the pullback mapping a cotangent
on this tensor to the cotangent it induces on this worker's local `features`
leaf. -/
structure Tracked (V : Type) where
  val : List V
  pullback : List V → List V

/-- The `features` tensor produced by the model (line 69), as an autograd
leaf: the cotangent it receives is the cotangent on itself. -/
def leafTensor {V : Type} (v : List V) : Tracked V :=
  { val := v, pullback := fun g => g }

/-- `torch.zeros_like(features)` (line 70): a fresh buffer with no autograd
history (`requires_grad=False`); a cotangent on it induces the zero cotangent
on the leaf it was shaped after. -/
def zerosLike {V : Type} [Zero V] (t : Tracked V) : Tracked V :=
  { val := t.val.map (fun _ => 0),
    pullback := fun _ => List.replicate t.val.length 0 }

/-- `dist.all_gather(features_gather, features)` (line 71): the collective
writes rank `i`'s forward value into buffer `i` in place.
`torch.distributed.all_gather` records no autograd edge, so each buffer keeps
its own (dead) pullback; in particular the input `features` is not linked to
any output buffer. -/
def distAllGather {V : Type} (bufs : List (Tracked V))
    (gatheredVals : List (List V)) : List (Tracked V) :=
  List.zipWith (fun b v => { val := v, pullback := b.pullback }) bufs gatheredVals

/-- Pointwise sum of two cotangents. -/
def addCot {V : Type} [Add V] (g1 g2 : List V) : List V :=
  List.zipWith (fun a b => a + b) g1 g2

/-- The backward of `torch.cat(parts, dim=0)`: split the incoming cotangent at
the parts' row counts, route each slice through that part's pullback, and sum
the resulting leaf cotangents. -/
def catPullback {V : Type} [Add V] [Zero V] (leafLen : ℕ) :
    List (Tracked V) → List V → List V
  | [], _ => List.replicate leafLen 0
  | t :: rest, g =>
    addCot (t.pullback (g.take t.val.length))
      (catPullback leafLen rest (g.drop t.val.length))

/-- `torch.cat(features_gather, dim=0)` (line 72) on the tape. -/
def catTracked {V : Type} [Add V] [Zero V] (leafLen : ℕ)
    (ts : List (Tracked V)) : Tracked V :=
  { val := (ts.map Tracked.val).flatten, pullback := catPullback leafLen ts }

/-- Lines 70-72 exactly as written: gather into a list of fresh
`zeros_like` buffers, then concatenate the buffers. -/
def codeGatherConcat {V : Type} [Add V] [Zero V] (features : Tracked V)
    (gatheredVals : List (List V)) (worldSize : ℕ) : Tracked V :=
  catTracked features.val.length
    (distAllGather (List.replicate worldSize (zerosLike features)) gatheredVals)

/-- Modelled from the spec (section 4.3): the explicit differentiable
all-gather collective the spec requires, with forward = concatenation of all
workers' batches and backward = extraction of this worker's rank-ordered slice
of the global cotangent. -/
def specDifferentiableAllGather {V : Type} (rank : ℕ) (features : Tracked V)
    (gatheredVals : List (List V)) : Tracked V :=
  { val := gatheredVals.flatten,
    pullback := fun g =>
      features.pullback
        ((g.drop (rank * features.val.length)).take features.val.length) }

/-! ## The distributed softmax cross entropy (spec section 4.5) -/

/-- The global column offset of worker `r`: the partial sum of the shard
sizes of the workers before it. -/
def shardOffset (csf : ℕ → ℕ) : ℕ → ℕ
  | 0 => 0
  | r + 1 => shardOffset csf r + csf r

/-- Modelled from the spec: worker-local row maximum over one shard's logits
(`cross_entropy.py` is not among the sources; spec section 4.5 computes each
worker's local row max before the all-reduce-max). -/
noncomputable def localRowMax (c : ℕ) (row : ℕ → ℝ) : ℝ :=
  ((List.range c).map row).foldr max (row 0)

/-- Modelled from the spec: the all-reduce-max of the per-worker local row
maxima for sample `s` — the shared stabilizer `M` of spec section 4.5. -/
noncomputable def reducedRowMax (ws : ℕ) (csf : ℕ → ℕ)
    (sl : ℕ → ℕ → ℕ → ℝ) (s : ℕ) : ℝ :=
  ((List.range ws).map (fun r => localRowMax (csf r) (sl r s))).foldr max
    (localRowMax (csf 0) (sl 0 s))

/-- Modelled from the spec: the all-reduce-sum of each worker's
`Σ exp(logit − M)` over its own shard — the true global softmax
denominator of spec section 4.5. -/
noncomputable def reducedExpSum (ws : ℕ) (csf : ℕ → ℕ)
    (sl : ℕ → ℕ → ℕ → ℝ) (s : ℕ) (M : ℝ) : ℝ :=
  ∑ r ∈ Finset.range ws, ∑ j ∈ Finset.range (csf r), Real.exp (sl r s j - M)

/-- Modelled from the spec: the numerator term, selected through the sharded
one-hot mask — nonzero only on the worker whose shard owns the true class,
all other workers contribute zero (spec section 4.5). -/
noncomputable def reducedTargetSum (ws : ℕ) (csf : ℕ → ℕ)
    (sl oh : ℕ → ℕ → ℕ → ℝ) (s : ℕ) (M : ℝ) : ℝ :=
  ∑ r ∈ Finset.range ws, ∑ j ∈ Finset.range (csf r),
    oh r s j * Real.exp (sl r s j - M)

/-- Modelled from the spec: the per-sample distributed loss of section 4.5,
`-log( exp(logit[s,c] − M) / Σ_over_all_shards exp(logit[s,k] − M) )` with
`M` the all-reduced row max. -/
noncomputable def distSampleLoss (ws : ℕ) (csf : ℕ → ℕ)
    (sl oh : ℕ → ℕ → ℕ → ℝ) (s : ℕ) : ℝ :=
  -Real.log
    (reducedTargetSum ws csf sl oh s (reducedRowMax ws csf sl s) /
      reducedExpSum ws csf sl s (reducedRowMax ws csf sl s))

/-- Modelled from the spec: the scalar loss over the global batch, the mean of
the per-sample distributed losses. -/
noncomputable def distLoss (ws : ℕ) (csf : ℕ → ℕ)
    (sl oh : ℕ → ℕ → ℕ → ℝ) (n : ℕ) : ℝ :=
  (∑ s ∈ Finset.range n, distSampleLoss ws csf sl oh s) / n

/-- The criterion call of `train.py` line 77:
`loss = criterion(logit, onehot_label, compute_loss, opt.fp16, opt.world_size)`,
with the scalar loss produced only when the cadence flag of line 76 is set. -/
noncomputable def criterionLoss (computeLoss : Bool) (ws : ℕ) (csf : ℕ → ℕ)
    (sl oh : ℕ → ℕ → ℕ → ℝ) (n : ℕ) : ℝ :=
  if computeLoss then distLoss ws csf sl oh n else 0

/-- The single-worker reference: standard softmax cross entropy of the full,
unsharded logits matrix against the label vector, per sample. -/
noncomputable def refSampleLoss (C : ℕ) (L : ℕ → ℕ → ℝ) (lab : ℕ → ℕ)
    (s : ℕ) : ℝ :=
  -Real.log (Real.exp (L s (lab s)) / ∑ k ∈ Finset.range C, Real.exp (L s k))

/-- The single-worker reference scalar loss: the mean over the batch. -/
noncomputable def refLoss (C : ℕ) (L : ℕ → ℕ → ℝ) (lab : ℕ → ℕ) (n : ℕ) : ℝ :=
  (∑ s ∈ Finset.range n, refSampleLoss C L lab s) / n

/-- Witness data: two shards of two classes each. -/
def csfW : ℕ → ℕ := fun _ => 2

/-- Witness data: every sample's true class is 3. -/
def labW : ℕ → ℕ := fun _ => 3

/-- Witness data: the full logits matrix `L s k = k`. -/
noncomputable def LW : ℕ → ℕ → ℝ := fun _ k => (k : ℝ)

/-- Witness data: the per-shard logit slices of `LW`. -/
noncomputable def slW : ℕ → ℕ → ℕ → ℝ := fun r s j => LW s (shardOffset csfW r + j)

/-- Witness data: the sharded one-hot labels for `labW`. -/
noncomputable def ohW : ℕ → ℕ → ℕ → ℝ := fun r s j =>
  if labW s = shardOffset csfW r + j then (1 : ℝ) else 0

/-! ## Basic lemmas about the embedded definitions -/

/-- The padded class count is the next multiple of `worldSize` strictly above
`numClasses`. -/
theorem padNumClasses_eq_mul (n ws : ℕ) (hws : 0 < ws) :
    padNumClasses n ws = ws * (n / ws + 1) := by
  have hm : n % ws < ws := Nat.mod_lt _ hws
  have hdm : ws * (n / ws) + n % ws = n := Nat.div_add_mod n ws
  calc padNumClasses n ws = ws * (n / ws) + n % ws + (ws - n % ws) := by
        rw [padNumClasses, hdm]
    _ = ws * (n / ws) + (n % ws + (ws - n % ws)) := by rw [Nat.add_assoc]
    _ = ws * (n / ws) + ws := by rw [Nat.add_sub_cancel' hm.le]
    _ = ws * (n / ws + 1) := by rw [Nat.mul_add, Nat.mul_one]

theorem padNumClasses_mod (n ws : ℕ) (hws : 0 < ws) :
    padNumClasses n ws % ws = 0 := by
  rw [padNumClasses_eq_mul n ws hws]
  exact Nat.mul_mod_right _ _

theorem padNumClasses_div (n ws : ℕ) (hws : 0 < ws) :
    padNumClasses n ws / ws = n / ws + 1 := by
  rw [padNumClasses_eq_mul n ws hws]
  exact Nat.mul_div_cancel_left _ hws

theorem sliceRows_flatten {α : Type} (b : ℕ) :
    ∀ (ls : List (List α)), (∀ l ∈ ls, l.length = b) →
      ∀ (r : ℕ) (hr : r < ls.length),
        sliceRows b r ls.flatten = ls.get ⟨r, hr⟩ := by
  intro ls
  induction ls with
  | nil => intro _ r hr; exact absurd hr (Nat.not_lt_zero r)
  | cons l tl ih =>
    intro hlen r hr
    have hl : l.length = b := hlen l (List.mem_cons_self l tl)
    cases r with
    | zero =>
      simp only [sliceRows, Nat.zero_mul, List.drop_zero, List.flatten_cons]
      rw [List.take_left' hl]
      rfl
    | succ r =>
      have htl : ∀ m ∈ tl, m.length = b := fun m hm => hlen m (List.mem_cons_of_mem l hm)
      have hr2 : r < tl.length := Nat.lt_of_succ_lt_succ hr
      have hm : (r + 1) * b = b + r * b := by ring
      simp only [sliceRows, List.flatten_cons, hm]
      rw [← List.drop_drop, List.drop_left' hl]
      exact ih htl r hr2

theorem catCols_shardLogitBlocks (embDim : ℕ) (x : ℕ → ℕ → ℚ) :
    ∀ (shardWeights : List (ℕ × (ℕ → ℕ → ℚ))) (s k : ℕ),
      catCols (shardLogitBlocks embDim x shardWeights) s k =
        fullLogits embDim x shardWeights s k := by
  intro sws
  induction sws with
  | nil =>
    intro s k
    simp [shardLogitBlocks, catCols, fullLogits, linearNoBias, catRowBlocks]
  | cons cw rest ih =>
    intro s k
    obtain ⟨c, w⟩ := cw
    by_cases hk : k < c
    · simp [shardLogitBlocks, catCols, fullLogits, linearNoBias, catRowBlocks, hk]
    · simp only [shardLogitBlocks, List.map_cons, catCols, fullLogits, linearNoBias,
        catRowBlocks, hk, if_false]
      exact ih s (k - c)

theorem driverStep_wModel {α β : Type}
    (optStep : ℚ → α → α) (optStepFc : ℚ → β → β) (wModel : α) (wPartFc : β)
    (sigma lossVal : ℚ) (accFn : (ℕ → ℕ → ℚ) → ℚ)
    (gathered : List (ℕ × (ℕ → ℕ → ℚ))) (rank step : ℕ) :
    (driverStep optStep optStepFc wModel wPartFc sigma lossVal accFn
        gathered rank step).wModel = optStep (sigma * lossVal) wModel := by
  simp only [driverStep]
  split_ifs <;> rfl

theorem driverStep_wPartFc {α β : Type}
    (optStep : ℚ → α → α) (optStepFc : ℚ → β → β) (wModel : α) (wPartFc : β)
    (sigma lossVal : ℚ) (accFn : (ℕ → ℕ → ℚ) → ℚ)
    (gathered : List (ℕ × (ℕ → ℕ → ℚ))) (rank step : ℕ) :
    (driverStep optStep optStepFc wModel wPartFc sigma lossVal accFn
        gathered rank step).wPartFc = optStepFc (sigma * lossVal) wPartFc := by
  simp only [driverStep]
  split_ifs <;> rfl

theorem addCot_replicate_zero {V : Type} [AddZeroClass V] (n : ℕ) :
    addCot (List.replicate n (0 : V)) (List.replicate n 0) = List.replicate n 0 := by
  induction n with
  | zero => rfl
  | succ m ih =>
    simp only [List.replicate_succ, addCot, List.zipWith_cons_cons, zero_add]
    exact congrArg (List.cons 0) ih

theorem catPullback_zero_bufs {V : Type} [AddZeroClass V] (n : ℕ) :
    ∀ (ts : List (Tracked V)),
      (∀ t ∈ ts, t.pullback = fun _ => List.replicate n 0) →
      ∀ g, catPullback n ts g = List.replicate n 0 := by
  intro ts
  induction ts with
  | nil => intro _ g; rfl
  | cons t rest ih =>
    intro h g
    have ht : t.pullback = fun _ => List.replicate n 0 :=
      h t (List.mem_cons_self t rest)
    have hrest := ih (fun m hm => h m (List.mem_cons_of_mem t hm))
    simp only [catPullback, ht, hrest]
    exact addCot_replicate_zero n

theorem distAllGather_pullback_mem {V : Type} (b : Tracked V) :
    ∀ (ws : ℕ) (vals : List (List V)) (t : Tracked V),
      t ∈ distAllGather (List.replicate ws b) vals → t.pullback = b.pullback := by
  intro ws
  induction ws with
  | zero => intro vals t ht; simp [distAllGather] at ht
  | succ m ih =>
    intro vals t ht
    cases vals with
    | nil => simp [distAllGather] at ht
    | cons v2 rest =>
      simp only [List.replicate_succ, distAllGather, List.zipWith_cons_cons,
        List.mem_cons] at ht
      rcases ht with h | h
      · rw [h]
      · exact ih rest t h

/-- The composite of lines 70-72 delivers the zero cotangent to the local
`features` leaf for every incoming global cotangent: `dist.all_gather` writes
into buffers that are disconnected from the tape, so `torch.cat`'s backward
routes every slice into a dead end. -/
theorem codeGatherConcat_pullback_zero {V : Type} [AddZeroClass V] (v : List V)
    (gatheredVals : List (List V)) (worldSize : ℕ) (g : List V) :
    (codeGatherConcat (leafTensor v) gatheredVals worldSize).pullback g =
      List.replicate v.length 0 := by
  have hmem : ∀ t ∈ distAllGather
      (List.replicate worldSize (zerosLike (leafTensor v))) gatheredVals,
      t.pullback = fun _ => List.replicate v.length 0 := by
    intro t ht
    have hb := distAllGather_pullback_mem (zerosLike (leafTensor v))
      worldSize gatheredVals t ht
    rw [hb]
    rfl
  exact catPullback_zero_bufs v.length _ hmem g

/-- Summing a function over the shards by (worker, local column) visits every
global column in `[0, shardOffset csf ws)` exactly once. -/
theorem sum_over_shards (csf : ℕ → ℕ) (g : ℕ → ℝ) :
    ∀ ws : ℕ,
      (∑ r ∈ Finset.range ws, ∑ j ∈ Finset.range (csf r),
        g (shardOffset csf r + j)) =
      ∑ k ∈ Finset.range (shardOffset csf ws), g k := by
  intro ws
  induction ws with
  | zero => simp [shardOffset]
  | succ w ih =>
    rw [Finset.sum_range_succ, ih]
    show _ = ∑ k ∈ Finset.range (shardOffset csf w + csf w), g k
    rw [Finset.sum_range_add]

/-! ## Claim C2: the backward of the gather drops the gradient -/

/-- C2 evaluation at a concrete failing input: with two workers and local
batches of two rows, the forward of lines 70-72 produces the correct global
concatenation, but its backward delivers the zero cotangent `[0, 0]` to the
local features instead of the slice `[10, 20]` (rank 0) respectively
`[30, 40]` (rank 1) that the spec's differentiable collective delivers. -/
theorem all_gather_backward_evaluation :
    (codeGatherConcat (leafTensor ([1, 2] : List ℤ)) [[1, 2], [5, 6]] 2).val =
      [1, 2, 5, 6] ∧
    (codeGatherConcat (leafTensor ([1, 2] : List ℤ))
        [[1, 2], [5, 6]] 2).pullback [10, 20, 30, 40] = [0, 0] ∧
    (specDifferentiableAllGather 0 (leafTensor ([1, 2] : List ℤ))
        [[1, 2], [5, 6]]).pullback [10, 20, 30, 40] = [10, 20] ∧
    (specDifferentiableAllGather 1 (leafTensor ([3, 4] : List ℤ))
        [[1, 2], [5, 6]]).pullback [10, 20, 30, 40] = [30, 40] ∧
    ([0, 0] : List ℤ) ≠ [10, 20] := by decide

/-! ## Claim C3: padding and the balanced shard partition -/

/-- C3 counterexample: line 150 adds `world_size - num_classes % world_size`
unconditionally, so a class count that is already divisible by the world size
is not left unchanged: with 4 classes and 2 workers the padded count is 6. -/
theorem pad_changes_divisible_numclasses :
    4 % 2 = 0 ∧ padNumClasses 4 2 = 6 ∧ padNumClasses 4 2 ≠ 4 := by decide

/-- C3 (amended): for a positive world size, the padding of line 150 always
moves the class count to the next multiple of the world size strictly above it
(so an already divisible count grows by a full world size), the result is
divisible by the world size, and the partitioner applied to the padded count
returns `worldSize` shard sizes that are all equal to `padded / worldSize`,
sum to the padded count, and tile `[0, padded)` contiguously without overlap;
the partitioner is a pure function, hence deterministic. -/
theorem padded_split_balanced (n ws : ℕ) (hws : 0 < ws) :
    padNumClasses n ws % ws = 0 ∧
    n < padNumClasses n ws ∧
    (get_class_split (padNumClasses n ws) ws).length = ws ∧
    (get_class_split (padNumClasses n ws) ws).sum = padNumClasses n ws ∧
    (∀ a ∈ get_class_split (padNumClasses n ws) ws, a = padNumClasses n ws / ws) ∧
    (∀ k < padNumClasses n ws, ∃! r : ℕ, r < ws ∧
        r * (padNumClasses n ws / ws) ≤ k ∧
        k < (r + 1) * (padNumClasses n ws / ws)) ∧
    get_class_split (padNumClasses n ws) ws = get_class_split (padNumClasses n ws) ws := by
  have hmod := padNumClasses_mod n ws hws
  have hdvd : ws ∣ padNumClasses n ws := Nat.dvd_of_mod_eq_zero hmod
  have hpq : ws * (padNumClasses n ws / ws) = padNumClasses n ws :=
    Nat.mul_div_cancel' hdvd
  have hq : 0 < padNumClasses n ws / ws := by
    rw [padNumClasses_div n ws hws]
    exact Nat.succ_pos _
  have hsplit : get_class_split (padNumClasses n ws) ws =
      List.replicate ws (padNumClasses n ws / ws) := by
    unfold get_class_split
    rw [hmod]
    simp [List.map_const']
  refine ⟨hmod, ?_, ?_, ?_, ?_, ?_, rfl⟩
  · have hm : n % ws < ws := Nat.mod_lt _ hws
    unfold padNumClasses
    omega
  · rw [hsplit, List.length_replicate]
  · rw [hsplit, List.sum_replicate, smul_eq_mul, hpq]
  · rw [hsplit]
    intro a ha
    exact List.eq_of_mem_replicate ha
  · intro k hk
    refine ⟨k / (padNumClasses n ws / ws), ⟨?_, ?_, ?_⟩, ?_⟩
    · exact (Nat.div_lt_iff_lt_mul hq).mpr (by rw [hpq]; exact hk)
    · exact Nat.div_mul_le_self _ _
    · exact (Nat.div_lt_iff_lt_mul hq).mp (Nat.lt_succ_self _)
    · rintro r ⟨_, hle, hlt⟩
      exact (Nat.div_eq_of_lt_le hle hlt).symm

/-- C3 witness: the amended statement at `n = 5`, `ws = 2`. -/
theorem padded_split_balanced_witness :
    padNumClasses 5 2 % 2 = 0 ∧
    5 < padNumClasses 5 2 ∧
    (get_class_split (padNumClasses 5 2) 2).length = 2 ∧
    (get_class_split (padNumClasses 5 2) 2).sum = padNumClasses 5 2 ∧
    (∀ a ∈ get_class_split (padNumClasses 5 2) 2, a = padNumClasses 5 2 / 2) ∧
    (∀ k < padNumClasses 5 2, ∃! r : ℕ, r < 2 ∧
        r * (padNumClasses 5 2 / 2) ≤ k ∧ k < (r + 1) * (padNumClasses 5 2 / 2)) ∧
    get_class_split (padNumClasses 5 2) 2 = get_class_split (padNumClasses 5 2) 2 :=
  padded_split_balanced 5 2 (by decide)

/-! ## Claim C5: the all-gather round trip -/

/-- C5: when every worker contributes a local batch of `b` rows, the
concatenated global batch (lines 70-72) has `b * worldSize` rows in ascending
rank order, and slicing it at worker `r`'s offset recovers worker `r`'s local
batch exactly. -/
theorem all_gather_round_trip {α : Type} (localBatches : List (List α)) (b : ℕ)
    (hb : ∀ l ∈ localBatches, l.length = b) :
    (allGatherConcat localBatches).length = b * localBatches.length ∧
    ∀ (r : ℕ) (hr : r < localBatches.length),
      sliceRows b r (allGatherConcat localBatches) = localBatches.get ⟨r, hr⟩ := by
  constructor
  · show (List.flatten localBatches).length = b * localBatches.length
    induction localBatches with
    | nil => simp
    | cons l tl ih =>
      have hl : l.length = b := hb l (List.mem_cons_self l tl)
      have htl : ∀ m ∈ tl, m.length = b := fun m hm => hb m (List.mem_cons_of_mem l hm)
      rw [List.flatten_cons, List.length_append, hl, ih htl, List.length_cons]
      ring
  · exact sliceRows_flatten b localBatches hb

/-- C5 witness: two workers with two rows each. -/
theorem all_gather_round_trip_witness :
    (allGatherConcat [[1, 2], [3, 4]]).length = 2 * 2 ∧
    sliceRows 2 0 (allGatherConcat [[1, 2], [3, 4]]) = [1, 2] ∧
    sliceRows 2 1 (allGatherConcat [[1, 2], [3, 4]]) = [3, 4] :=
  ⟨(all_gather_round_trip [[1, 2], [3, 4]] 2 (by decide)).1,
   (all_gather_round_trip [[1, 2], [3, 4]] 2 (by decide)).2 0 (by decide),
   (all_gather_round_trip [[1, 2], [3, 4]] 2 (by decide)).2 1 (by decide)⟩

/-! ## Claim C9: model-parallel mode is required to get past startup -/

/-- C9: without `--model_parallel`, `class_split` stays `None` and line 171
(`class_split[opt.rank]`) fails before startup completes; consequently every
run that reaches training has model-parallel mode active and a class split of
length `worldSize`. -/
theorem model_parallel_required (mp : Bool) (d ws r : ℕ) :
    (mp = false → mainSetup mp d ws r = .error .noneSubscript) ∧
    (∀ s : Setup, mainSetup mp d ws r = .ok s → mp = true ∧ s.classSplit.length = ws) := by
  constructor
  · intro h
    subst h
    rfl
  · intro s hs
    cases mp with
    | false => exact absurd hs (by simp [mainSetup])
    | true =>
      refine ⟨rfl, ?_⟩
      have hlen : (get_class_split (padNumClasses d ws) ws).length = ws := by
        simp [get_class_split]
      have hs2 : (match (get_class_split (padNumClasses d ws) ws)[r]? with
          | none => (Except.error SetupError.rankOutOfRange : Except SetupError Setup)
          | some sz =>
            Except.ok { numClasses := padNumClasses d ws
                        classSplit := get_class_split (padNumClasses d ws) ws
                        partFcOutFeatures := sz }) = Except.ok s := hs
      cases hget : (get_class_split (padNumClasses d ws) ws)[r]? with
      | none =>
        rw [hget] at hs2
        exact absurd hs2 (by simp)
      | some sz =>
        rw [hget] at hs2
        simp only [Except.ok.injEq] at hs2
        rw [← hs2]
        exact hlen

/-- C9 witness: with model parallel off, startup errors on the `None`
subscript; with it on, the run reaches a setup whose class split has length 2. -/
theorem model_parallel_required_witness :
    mainSetup false 751 2 0 = .error .noneSubscript ∧
    (true = true ∧ (Setup.mk 752 [376, 376] 376).classSplit.length = 2) :=
  ⟨(model_parallel_required false 751 2 0).1 rfl,
   (model_parallel_required true 751 2 0).2 (Setup.mk 752 [376, 376] 376) rfl⟩

/-! ## Claim C10: no training without the fp16 flag -/

/-- C10 counterexample: an invocation without `--fp16` and without
`--model_parallel` does not build the shard classifier and optimizers and then
terminate; it fails during shard-classifier construction (line 171), so the
claim as stated does not hold for every invocation without `--fp16`. -/
theorem no_fp16_claim_cex :
    mainProgram false false 751 2 0 15 100 = .error .noneSubscript ∧
    ∀ out : RunOutcome, mainProgram false false 751 2 0 15 100 ≠ Except.ok out := by
  refine ⟨rfl, ?_⟩
  intro out h
  rw [show mainProgram false false 751 2 0 15 100 = .error .noneSubscript from rfl] at h
  exact Except.noConfusion h

/-- C10 (amended): for every invocation without `--fp16`, no criterion is
instantiated and no training step runs; when `--model_parallel` is also given
(and the rank is a valid shard index) the program builds the model, shard
classifier and optimizers and then terminates cleanly with the training block
of line 181 skipped. -/
theorem no_fp16_no_training (fp16 mp : Bool) (d ws r e sp : ℕ) (hf : fp16 = false) :
    (∀ out : RunOutcome, mainProgram fp16 mp d ws r e sp = .ok out →
        out.criterionBuilt = false ∧ out.trainStepsRun = 0 ∧
        out.builtModel = true ∧ out.builtPartFc = true ∧ out.builtOptimizers = true) ∧
    (mp = true → r < ws →
        mainProgram fp16 mp d ws r e sp =
          .ok { builtModel := true, builtPartFc := true, builtOptimizers := true,
                criterionBuilt := false, trainStepsRun := 0 }) := by
  subst hf
  constructor
  · intro out hout
    unfold mainProgram at hout
    cases hset : mainSetup mp d ws r with
    | error e2 => rw [hset] at hout; exact absurd hout (by simp)
    | ok s =>
      rw [hset] at hout
      simp only [optDistributed, Bool.and_true, Bool.false_and, Except.ok.injEq] at hout
      rw [← hout]
      exact ⟨rfl, rfl, rfl, rfl, rfl⟩
  · intro hmp hr
    subst hmp
    have hlen : (get_class_split (padNumClasses d ws) ws).length = ws := by
      simp [get_class_split]
    have hr2 : r < (get_class_split (padNumClasses d ws) ws).length := by omega
    have hget : (get_class_split (padNumClasses d ws) ws)[r]? =
        some ((get_class_split (padNumClasses d ws) ws)[r]) :=
      List.getElem?_eq_getElem hr2
    show (match (match (get_class_split (padNumClasses d ws) ws)[r]? with
        | none => (Except.error SetupError.rankOutOfRange : Except SetupError Setup)
        | some sz =>
          Except.ok { numClasses := padNumClasses d ws
                      classSplit := get_class_split (padNumClasses d ws) ws
                      partFcOutFeatures := sz }) with
      | Except.error e2 => (Except.error e2 : Except SetupError RunOutcome)
      | Except.ok _ =>
        Except.ok { builtModel := true, builtPartFc := true, builtOptimizers := true,
                    criterionBuilt := false && optDistributed,
                    trainStepsRun := if false && optDistributed then e * sp else 0 }) =
      Except.ok { builtModel := true, builtPartFc := true, builtOptimizers := true,
                  criterionBuilt := false, trainStepsRun := 0 }
    rw [hget]
    rfl

/-- C10 witness: without `--fp16` but with `--model_parallel`, the program
terminates cleanly with no criterion and zero training steps. -/
theorem no_fp16_no_training_witness :
    mainProgram false true 751 2 0 15 100 =
      .ok { builtModel := true, builtPartFc := true, builtOptimizers := true,
            criterionBuilt := false, trainStepsRun := 0 } ∧
    ({ builtModel := true, builtPartFc := true, builtOptimizers := true,
       criterionBuilt := false, trainStepsRun := 0 : RunOutcome }.criterionBuilt = false ∧
     ({ builtModel := true, builtPartFc := true, builtOptimizers := true,
        criterionBuilt := false, trainStepsRun := 0 : RunOutcome }).trainStepsRun = 0 ∧
     True = True ∧ True = True ∧ True = True) :=
  ⟨(no_fp16_no_training false true 751 2 0 15 100 rfl).2 rfl (by decide),
   by
    have h := (no_fp16_no_training false true 751 2 0 15 100 rfl).1
      { builtModel := true, builtPartFc := true, builtOptimizers := true,
        criterionBuilt := false, trainStepsRun := 0 }
      ((no_fp16_no_training false true 751 2 0 15 100 rfl).2 rfl (by decide))
    exact ⟨h.1, h.2.1, rfl, rfl, rfl⟩⟩

/-! ## Claim C4: cadence gating of the optional collectives -/

/-- C4: on a step that does not satisfy `step > 0 and step % 10 == 0`, the
driver issues no collective beyond the mandatory embedding all-gather; the
loss gate of line 76 and the metric gate of line 88 are the same pure function
of the shared step counter, and the collective trace of a worker does not
depend on its rank, so all workers make the identical decision on every
step. -/
theorem cadence_no_extra_collectives (step : ℕ)
    (h : ¬(0 < step ∧ step % 10 = 0)) :
    stepCollectives step = [Collective.allGather Payload.features] ∧
    (∀ s, computeLossGate s = metricGate s) ∧
    (∀ r₁ r₂ s, workerStepCollectives r₁ s = workerStepCollectives r₂ s) := by
  refine ⟨?_, fun s => rfl, fun r₁ r₂ s => rfl⟩
  have h1 : computeLossGate step = false := by
    simp only [computeLossGate, Bool.and_eq_false_iff, decide_eq_false_iff_not]
    by_cases h0 : 0 < step
    · exact Or.inr (fun hm => h ⟨h0, hm⟩)
    · exact Or.inl h0
  have h2 : metricGate step = false := h1
  simp [stepCollectives, criterionCollectives, h1, h2]

/-- C4 witness: step 5 issues only the embedding all-gather, the two gates
agree at step 7, and ranks 0 and 1 issue the same trace at step 9. -/
theorem cadence_no_extra_collectives_witness :
    stepCollectives 5 = [Collective.allGather Payload.features] ∧
    computeLossGate 7 = metricGate 7 ∧
    workerStepCollectives 0 9 = workerStepCollectives 1 9 :=
  ⟨(cadence_no_extra_collectives 5 (by decide)).1,
   (cadence_no_extra_collectives 5 (by decide)).2.1 7,
   (cadence_no_extra_collectives 5 (by decide)).2.2 0 1 9⟩

/-! ## Claim C8: the classifier weight stays out of every collective -/

/-- C8: on every step, no collective carries the shard classifier weight, and
the only payloads ever passed to an all-gather are the embedding features and
the shard logits output. -/
theorem classifier_weight_not_communicated (step : ℕ) (c : Collective)
    (hc : c ∈ stepCollectives step) :
    c.payload ≠ Payload.classifierWeight ∧
    (∀ p, c = Collective.allGather p →
      p = Payload.features ∨ p = Payload.shardLogits) := by
  have h2 : metricGate step = computeLossGate step := rfl
  cases hgate : computeLossGate step with
  | false =>
    simp [stepCollectives, criterionCollectives, hgate, h2] at hc
    subst hc
    refine ⟨fun h => Payload.noConfusion h, ?_⟩
    intro p hp
    injection hp with h3
    exact Or.inl h3.symm
  | true =>
    simp [stepCollectives, criterionCollectives, hgate, h2] at hc
    rcases hc with h | h | h | h <;> subst h
    · refine ⟨fun h => Payload.noConfusion h, ?_⟩
      intro p hp
      injection hp with h3
      exact Or.inl h3.symm
    · exact ⟨fun h => Payload.noConfusion h, fun p hp => Collective.noConfusion hp⟩
    · exact ⟨fun h => Payload.noConfusion h, fun p hp => Collective.noConfusion hp⟩
    · refine ⟨fun h => Payload.noConfusion h, ?_⟩
      intro p hp
      injection hp with h3
      exact Or.inr h3.symm

/-- C8 witness: the embedding all-gather of step 0 carries the features, not
the classifier weight. -/
theorem classifier_weight_not_communicated_witness :
    (Collective.allGather Payload.features).payload ≠ Payload.classifierWeight ∧
    (Payload.features = Payload.features ∨ Payload.features = Payload.shardLogits) :=
  ⟨(classifier_weight_not_communicated 0 (Collective.allGather Payload.features)
      (by decide)).1,
   (classifier_weight_not_communicated 0 (Collective.allGather Payload.features)
      (by decide)).2 Payload.features rfl⟩

/-! ## Claim C7: the logged loss is the unscaled loss -/

/-- C7: on a reporting step with a nonzero loss, the logged loss value is the
pre-scaling loss (`loss.item()`, line 98), the logged scale equals
`scaled_loss / loss`, which is exactly the multiplier amp applied, the logged
loss does not depend on that multiplier, and the multiplier reaches the rest
of the state only through the amp-managed backward of the scaled loss
(lines 83-85). -/
theorem logged_loss_is_unscaled {α β : Type}
    (optStep : ℚ → α → α) (optStepFc : ℚ → β → β) (wModel : α) (wPartFc : β)
    (sigma lossVal : ℚ) (accFn : (ℕ → ℕ → ℚ) → ℚ)
    (gathered : List (ℕ × (ℕ → ℕ → ℚ))) (step : ℕ)
    (hloss : lossVal ≠ 0) (hgate : 0 < step ∧ step % 10 = 0) :
    (driverStep optStep optStepFc wModel wPartFc sigma lossVal accFn
        gathered 0 step).log.lossValue = some lossVal ∧
    (driverStep optStep optStepFc wModel wPartFc sigma lossVal accFn
        gathered 0 step).log.scaleValue = some sigma ∧
    (∀ sigma2 : ℚ,
      (driverStep optStep optStepFc wModel wPartFc sigma2 lossVal accFn
          gathered 0 step).log.lossValue =
        (driverStep optStep optStepFc wModel wPartFc sigma lossVal accFn
          gathered 0 step).log.lossValue) ∧
    (driverStep optStep optStepFc wModel wPartFc sigma lossVal accFn
        gathered 0 step).wModel = optStep (sigma * lossVal) wModel ∧
    (driverStep optStep optStepFc wModel wPartFc sigma lossVal accFn
        gathered 0 step).wPartFc = optStepFc (sigma * lossVal) wPartFc := by
  have hg : metricGate step = true := by
    simp [metricGate, hgate.1, hgate.2]
  have hscale : sigma * lossVal / lossVal = sigma :=
    mul_div_cancel_right₀ sigma hloss
  refine ⟨?_, ?_, ?_, driverStep_wModel _ _ _ _ _ _ _ _ _ _,
    driverStep_wPartFc _ _ _ _ _ _ _ _ _ _⟩
  · simp [driverStep, hg]
  · simp [driverStep, hg, hscale]
  · intro sigma2
    simp [driverStep, hg]

/-- C7 witness: a reporting step with loss 2 and amp multiplier 3 logs loss 2
and scale 3, and the logged loss is the same under multiplier 5. -/
theorem logged_loss_is_unscaled_witness :
    (driverStep (fun _ w => w) (fun _ w => w) (1 : ℚ) (1 : ℚ) 3 2 (fun _ => 0)
        [] 0 10).log.lossValue = some 2 ∧
    (driverStep (fun _ w => w) (fun _ w => w) (1 : ℚ) (1 : ℚ) 3 2 (fun _ => 0)
        [] 0 10).log.scaleValue = some 3 ∧
    (driverStep (fun _ w => w) (fun _ w => w) (1 : ℚ) (1 : ℚ) 5 2 (fun _ => 0)
        [] 0 10).log.lossValue =
      (driverStep (fun _ w => w) (fun _ w => w) (1 : ℚ) (1 : ℚ) 3 2 (fun _ => 0)
        [] 0 10).log.lossValue :=
  ⟨(logged_loss_is_unscaled (fun _ w => w) (fun _ w => w) 1 1 3 2 (fun _ => 0)
      [] 10 (by norm_num) (by decide)).1,
   (logged_loss_is_unscaled (fun _ w => w) (fun _ w => w) 1 1 3 2 (fun _ => 0)
      [] 10 (by norm_num) (by decide)).2.1,
   (logged_loss_is_unscaled (fun _ w => w) (fun _ w => w) 1 1 3 2 (fun _ => 0)
      [] 10 (by norm_num) (by decide)).2.2.1 5⟩

/-! ## Claim C6: the metric path reconstructs the full logits on rank 0 only -/

/-- C6: on a reporting step, concatenating the gathered shard logits along the
class dimension yields exactly the full logits matrix of the gathered batch
against the virtual full classifier weight; rank 0 logs the top-1 batch
accuracy of that matrix against the label vector while every other rank logs
none; and the reconstruction contributes nothing to any weight update: the
post-step weights are the same for every metric function, every gathered
logits list and every rank. -/
theorem metric_reconstruction_rank0_only {α β : Type}
    (optStep : ℚ → α → α) (optStepFc : ℚ → β → β) (wModel : α) (wPartFc : β)
    (sigma lossVal : ℚ) (embDim nCols nRows : ℕ)
    (x : ℕ → ℕ → ℚ) (sws : List (ℕ × (ℕ → ℕ → ℚ))) (labels : ℕ → ℕ)
    (rank step : ℕ) (hgate : 0 < step ∧ step % 10 = 0) :
    catCols (shardLogitBlocks embDim x sws) = fullLogits embDim x sws ∧
    (driverStep optStep optStepFc wModel wPartFc sigma lossVal
        (fun m => compute_batch_acc_dist nCols nRows m labels)
        (shardLogitBlocks embDim x sws) 0 step).log.accValue =
      some (compute_batch_acc_dist nCols nRows (fullLogits embDim x sws) labels) ∧
    (rank ≠ 0 →
      (driverStep optStep optStepFc wModel wPartFc sigma lossVal
          (fun m => compute_batch_acc_dist nCols nRows m labels)
          (shardLogitBlocks embDim x sws) rank step).log.accValue = none) ∧
    (∀ (accFn1 accFn2 : (ℕ → ℕ → ℚ) → ℚ)
        (g1 g2 : List (ℕ × (ℕ → ℕ → ℚ))) (r1 r2 : ℕ),
      (driverStep optStep optStepFc wModel wPartFc sigma lossVal accFn1
          g1 r1 step).wModel =
        (driverStep optStep optStepFc wModel wPartFc sigma lossVal accFn2
          g2 r2 step).wModel ∧
      (driverStep optStep optStepFc wModel wPartFc sigma lossVal accFn1
          g1 r1 step).wPartFc =
        (driverStep optStep optStepFc wModel wPartFc sigma lossVal accFn2
          g2 r2 step).wPartFc) := by
  have hg : metricGate step = true := by
    simp [metricGate, hgate.1, hgate.2]
  have hcat : catCols (shardLogitBlocks embDim x sws) = fullLogits embDim x sws := by
    funext s k
    exact catCols_shardLogitBlocks embDim x sws s k
  refine ⟨hcat, ?_, ?_, ?_⟩
  · simp [driverStep, hg, hcat]
  · intro hrank
    simp [driverStep, hg, hrank]
  · intro accFn1 accFn2 g1 g2 r1 r2
    rw [driverStep_wModel, driverStep_wModel, driverStep_wPartFc, driverStep_wPartFc]
    exact ⟨rfl, rfl⟩

/-- C6 witness: two single-class shards, one sample, a reporting step; rank 1
logs no accuracy and the weight updates ignore the metric function. -/
theorem metric_reconstruction_rank0_only_witness :
    catCols (shardLogitBlocks 1 (fun _ _ => 1) [(1, fun _ _ => 1), (1, fun _ _ => 2)]) =
      fullLogits 1 (fun _ _ => 1) [(1, fun _ _ => 1), (1, fun _ _ => 2)] ∧
    (driverStep (fun _ w => w) (fun _ w => w) (0 : ℚ) (0 : ℚ) 1 1
        (fun m => compute_batch_acc_dist 2 1 m (fun _ => 1))
        (shardLogitBlocks 1 (fun _ _ => 1) [(1, fun _ _ => 1), (1, fun _ _ => 2)])
        0 10).log.accValue =
      some (compute_batch_acc_dist 2 1
        (fullLogits 1 (fun _ _ => 1) [(1, fun _ _ => 1), (1, fun _ _ => 2)])
        (fun _ => 1)) ∧
    (driverStep (fun _ w => w) (fun _ w => w) (0 : ℚ) (0 : ℚ) 1 1
        (fun m => compute_batch_acc_dist 2 1 m (fun _ => 1))
        (shardLogitBlocks 1 (fun _ _ => 1) [(1, fun _ _ => 1), (1, fun _ _ => 2)])
        1 10).log.accValue = none ∧
    (driverStep (fun _ w => w) (fun _ w => w) (0 : ℚ) (0 : ℚ) 1 1 (fun _ => 0)
        [] 0 10).wModel =
      (driverStep (fun _ w => w) (fun _ w => w) (0 : ℚ) (0 : ℚ) 1 1 (fun _ => 1)
        [] 1 10).wModel :=
  ⟨(metric_reconstruction_rank0_only (fun _ w => w) (fun _ w => w) (0 : ℚ) (0 : ℚ)
      1 1 1 2 1 (fun _ _ => 1) [(1, fun _ _ => 1), (1, fun _ _ => 2)] (fun _ => 1)
      1 10 (by decide)).1,
   (metric_reconstruction_rank0_only (fun _ w => w) (fun _ w => w) (0 : ℚ) (0 : ℚ)
      1 1 1 2 1 (fun _ _ => 1) [(1, fun _ _ => 1), (1, fun _ _ => 2)] (fun _ => 1)
      1 10 (by decide)).2.1,
   (metric_reconstruction_rank0_only (fun _ w => w) (fun _ w => w) (0 : ℚ) (0 : ℚ)
      1 1 1 2 1 (fun _ _ => 1) [(1, fun _ _ => 1), (1, fun _ _ => 2)] (fun _ => 1)
      1 10 (by decide)).2.2.1 (by decide),
   ((metric_reconstruction_rank0_only (fun _ w => w) (fun _ w => w) (0 : ℚ) (0 : ℚ)
      1 1 1 2 1 (fun _ _ => 1) [(1, fun _ _ => 1), (1, fun _ _ => 2)] (fun _ => 1)
      1 10 (by decide)).2.2.2 (fun _ => 0) (fun _ => 1) [] [] 0 1).1⟩

/-! ## Claim C1: the distributed loss equals the reference loss -/

/-- C1: on every loss-computing step (`step > 0 and step % 10 == 0`, line 76),
the distributed model-parallel cross entropy built from the per-shard logits,
the sharded one-hot labels and the world size equals the standard
single-worker softmax cross entropy of the full unsharded logits matrix
against the replicated label vector, under exact arithmetic, for every batch
and every shard partition of the class range. -/
theorem dist_cross_entropy_refines_reference
    (step ws n C : ℕ) (csf : ℕ → ℕ) (L : ℕ → ℕ → ℝ) (lab : ℕ → ℕ)
    (sl oh : ℕ → ℕ → ℕ → ℝ)
    (hgate : 0 < step ∧ step % 10 = 0)
    (hC : shardOffset csf ws = C)
    (hlab : ∀ s < n, lab s < C)
    (hsl : ∀ r < ws, ∀ s < n, ∀ j < csf r,
      sl r s j = L s (shardOffset csf r + j))
    (hoh : ∀ r < ws, ∀ s < n, ∀ j < csf r,
      oh r s j = if lab s = shardOffset csf r + j then (1 : ℝ) else 0) :
    criterionLoss (computeLossGate step) ws csf sl oh n = refLoss C L lab n := by
  have hflag : computeLossGate step = true := by
    simp [computeLossGate, hgate.1, hgate.2]
  rw [criterionLoss, hflag, if_pos rfl, distLoss, refLoss]
  congr 1
  apply Finset.sum_congr rfl
  intro s hs
  have hsn : s < n := Finset.mem_range.mp hs
  rw [distSampleLoss, refSampleLoss]
  set M := reducedRowMax ws csf sl s with hM
  have hnum : reducedTargetSum ws csf sl oh s M = Real.exp (L s (lab s) - M) := by
    rw [reducedTargetSum]
    rw [Finset.sum_congr rfl (fun r hr => Finset.sum_congr rfl (fun j hj => by
      rw [hoh r (Finset.mem_range.mp hr) s hsn j (Finset.mem_range.mp hj),
        hsl r (Finset.mem_range.mp hr) s hsn j (Finset.mem_range.mp hj)]))]
    rw [sum_over_shards csf
      (fun k => (if lab s = k then (1 : ℝ) else 0) * Real.exp (L s k - M)) ws, hC]
    rw [Finset.sum_congr rfl
      (fun k _ => by rw [ite_mul, one_mul, zero_mul])]
    rw [Finset.sum_ite_eq (Finset.range C) (lab s)
      (fun k => Real.exp (L s k - M))]
    rw [if_pos (Finset.mem_range.mpr (hlab s hsn))]
  have hden : reducedExpSum ws csf sl s M =
      ∑ k ∈ Finset.range C, Real.exp (L s k - M) := by
    rw [reducedExpSum]
    rw [Finset.sum_congr rfl (fun r hr => Finset.sum_congr rfl (fun j hj => by
      rw [hsl r (Finset.mem_range.mp hr) s hsn j (Finset.mem_range.mp hj)]))]
    rw [sum_over_shards csf (fun k => Real.exp (L s k - M)) ws, hC]
  rw [hnum, hden]
  have hden2 : (∑ k ∈ Finset.range C, Real.exp (L s k - M)) =
      (∑ k ∈ Finset.range C, Real.exp (L s k)) / Real.exp M := by
    rw [Finset.sum_congr rfl (fun k _ => Real.exp_sub (L s k) M),
      ← Finset.sum_div]
  rw [Real.exp_sub, hden2, div_div_div_comm,
    div_self (Real.exp_ne_zero M), div_one]

/-- C1 witness: step 10, two workers, four classes split two-and-two, one
sample with true class 3. -/
theorem dist_cross_entropy_refines_reference_witness :
    criterionLoss (computeLossGate 10) 2 csfW slW ohW 1 = refLoss 4 LW labW 1 :=
  dist_cross_entropy_refines_reference 10 2 1 4 csfW LW labW slW ohW
    (by decide) (by decide) (by decide)
    (fun r _ s _ j _ => rfl) (fun r _ s _ j _ => rfl)

end ModelParallel
